import Mathlib

/-!
Verification of `vrdy_knihovna_to_ics.py` — a scraper that fetches the
event listing of the Vrdy library web site, extracts events from the
listing's HTML blocks and emits an iCalendar document.

The development is a shallow embedding of the Python source: each Python
function is translated into an executable Lean definition over `String`
(backed by `List Char`), timestamps are modelled as minutes since
0001-01-01 in the proleptic Gregorian calendar (Python's `datetime`
arithmetic on day/hour deltas corresponds exactly to arithmetic on this
count), and Python exceptions (`ValueError` from `strptime`) are modelled
with `Except`.  Regular-expression searches of the source are embedded as
explicit leftmost-match scanning functions; the character classes `\d`,
`\s` and `\w` are modelled over ASCII plus the Czech diacritic letters
that occur in the scraped text.
-/

namespace KnihovnaVrdy

/-! ### Character-level helpers (Python string primitives) -/

/-- Python `\s` (whitespace) restricted to the ASCII whitespace characters. -/
def isPySpace (c : Char) : Bool :=
  c = ' ' || c = '\t' || c = '\n' || c = '\x0b' || c = '\x0c' || c = '\r'

/-- The Czech diacritic letters (lower case) that occur in the scraped text. -/
def czechLower : List Char :=
  ['á', 'č', 'ď', 'é', 'ě', 'í', 'ň', 'ó', 'ř', 'š', 'ť', 'ú', 'ů', 'ý', 'ž']

/-- The Czech diacritic letters (upper case). -/
def czechUpper : List Char :=
  ['Á', 'Č', 'Ď', 'É', 'Ě', 'Í', 'Ň', 'Ó', 'Ř', 'Š', 'Ť', 'Ú', 'Ů', 'Ý', 'Ž']

/-- Python `\w` (word character), modelled over ASCII alphanumerics,
underscore and the Czech diacritic letters. -/
def isWordChar (c : Char) : Bool :=
  c.isAlphanum || c = '_' || czechLower.contains c || czechUpper.contains c

/-- Python `str.lower` on one character, for the alphabet used here:
ASCII letters plus the Czech diacritic letters. -/
def pyLowerChar (c : Char) : Char :=
  if 'A' ≤ c ∧ c ≤ 'Z' then Char.ofNat (c.toNat + 32)
  else if c = 'Á' then 'á' else if c = 'Č' then 'č' else if c = 'Ď' then 'ď'
  else if c = 'É' then 'é' else if c = 'Ě' then 'ě' else if c = 'Í' then 'í'
  else if c = 'Ň' then 'ň' else if c = 'Ó' then 'ó' else if c = 'Ř' then 'ř'
  else if c = 'Š' then 'š' else if c = 'Ť' then 'ť' else if c = 'Ú' then 'ú'
  else if c = 'Ů' then 'ů' else if c = 'Ý' then 'ý' else if c = 'Ž' then 'ž'
  else c

/-- Python `str.upper` on one character, for the same alphabet. -/
def pyUpperChar (c : Char) : Char :=
  if 'a' ≤ c ∧ c ≤ 'z' then Char.ofNat (c.toNat - 32)
  else if c = 'á' then 'Á' else if c = 'č' then 'Č' else if c = 'ď' then 'Ď'
  else if c = 'é' then 'É' else if c = 'ě' then 'Ě' else if c = 'í' then 'Í'
  else if c = 'ň' then 'Ň' else if c = 'ó' then 'Ó' else if c = 'ř' then 'Ř'
  else if c = 'š' then 'Š' else if c = 'ť' then 'Ť' else if c = 'ú' then 'Ú'
  else if c = 'ů' then 'Ů' else if c = 'ý' then 'Ý' else if c = 'ž' then 'Ž'
  else c

/-- Python `str.lower` on a string. -/
def pyLower (s : String) : String := ⟨s.data.map pyLowerChar⟩

/-- Python `str.strip()` on a character list. -/
def pyStripList (l : List Char) : List Char :=
  ((l.dropWhile isPySpace).reverse.dropWhile isPySpace).reverse

/-- Python `str.strip()`. -/
def pyStrip (s : String) : String := ⟨pyStripList s.data⟩

/-- Is `n` a prefix of `h` (character lists)? -/
def prefixCheck : List Char → List Char → Bool
  | [], _ => true
  | _ :: _, [] => false
  | a :: n, b :: h => a = b && prefixCheck n h

/-- Python `needle in hay` (substring containment) on character lists. -/
def containsSub (n : List Char) : List Char → Bool
  | [] => prefixCheck n []
  | c :: rest => prefixCheck n (c :: rest) || containsSub n rest

/-- Python `hay.startswith(pre)`. -/
def pyStartsWith (s pre : String) : Bool := prefixCheck pre.data s.data

/-- Python `pre in s`. -/
def pyContains (s sub : String) : Bool := containsSub sub.data s.data

/-- Collapse a Windows line ending to a single newline character
(`str.splitlines` treats the pair as one break). -/
def normalizeCRLF : List Char → List Char
  | [] => []
  | '\r' :: '\n' :: rest => '\n' :: normalizeCRLF rest
  | c :: rest => c :: normalizeCRLF rest

/-- Worker for `splitlines` after CRLF normalisation: `cur` is the
current line accumulated in reverse. -/
def splitLinesAux (cur : List Char) : List Char → List (List Char)
  | [] => if cur.isEmpty then [] else [cur.reverse]
  | c :: rest =>
    if c = '\n' || c = '\r' then cur.reverse :: splitLinesAux [] rest
    else splitLinesAux (c :: cur) rest

/-- Python `str.splitlines()` (restricted to the LF / CR / CRLF breaks). -/
def pySplitlines (s : String) : List String :=
  (splitLinesAux [] (normalizeCRLF s.data)).map (fun l => ⟨l⟩)

/-! ### Dates and times

A timestamp is the number of minutes since 0001-01-01 00:00 in the
proleptic Gregorian calendar.  Python `datetime` comparison and
`timedelta` addition correspond to comparison and addition of this
count. -/

/-- Is `y` a Gregorian leap year? -/
def isLeap (y : Nat) : Bool := (y % 4 = 0 && y % 100 ≠ 0) || y % 400 = 0

/-- Number of days in month `m` of year `y`. -/
def daysInMonth (y m : Nat) : Nat :=
  if m = 2 then (if isLeap y then 29 else 28)
  else if m = 4 || m = 6 || m = 9 || m = 11 then 30
  else 31

/-- Days in the months strictly before month `m` of year `y`. -/
def daysBeforeMonth (y m : Nat) : Nat :=
  let L : Nat := if isLeap y then 1 else 0
  match m with
  | 1 => 0 | 2 => 31 | 3 => 59 + L | 4 => 90 + L | 5 => 120 + L
  | 6 => 151 + L | 7 => 181 + L | 8 => 212 + L | 9 => 243 + L
  | 10 => 273 + L | 11 => 304 + L | 12 => 334 + L
  | _ => 365 + L

/-- Days between 0001-01-01 and the first day of year `y`. -/
def daysBeforeYear (y : Nat) : Nat :=
  365 * (y - 1) + (y - 1) / 4 - (y - 1) / 100 + (y - 1) / 400

/-- Day count of the civil date `y`-`m`-`d` (0001-01-01 is day 0). -/
def civilToDays (y m d : Nat) : Nat :=
  daysBeforeYear y + daysBeforeMonth y m + (d - 1)

/-- Minutes since 0001-01-01 00:00 of the timestamp `y-m-d h:mi`. -/
def dtm (y m d h mi : Nat) : Nat := civilToDays y m d * 1440 + h * 60 + mi

/-- One day, in minutes (`timedelta(days=1)`). -/
def oneDay : Nat := 1440

/-- Two hours, in minutes (`timedelta(hours=2)`). -/
def twoHours : Nat := 120

/-- Recover the civil date from a day count (Hinnant's civil-from-days
algorithm, shifted to the 0000-03-01 epoch so all values are natural). -/
def daysToCivil (days : Nat) : Nat × Nat × Nat :=
  let z := days + 306
  let era := z / 146097
  let doe := z % 146097
  let yoe := (doe - doe / 1460 + doe / 36524 - doe / 146096) / 365
  let doy := doe - (365 * yoe + yoe / 4 - yoe / 100)
  let mp := (5 * doy + 2) / 153
  let d := doy - (153 * mp + 2) / 5 + 1
  let m := if mp < 10 then mp + 3 else mp - 9
  let y := yoe + era * 400
  (if m ≤ 2 then y + 1 else y, m, d)

/-- Is `c` an ASCII digit? (`\d` of the source regexes). -/
def isDig (c : Char) : Bool := c.isDigit

/-- Numeric value of a digit character. -/
def digVal (c : Char) : Nat := c.toNat - 48

/-- Two-digit numeral value. -/
def val2 (a b : Char) : Nat := 10 * digVal a + digVal b

/-- Four-digit numeral value. -/
def val4 (a b c d : Char) : Nat :=
  1000 * digVal a + 100 * digVal b + 10 * digVal c + digVal d

/-- Python `datetime.strptime(s, "%d.%m.%Y")` modelled on the exact
ten-character match produced by the `DD.MM.YYYY` regex: returns the
midnight timestamp, or an error (Python raises `ValueError`) when the
numerals do not form a valid calendar date. -/
def strptimeDate (l : List Char) : Except Unit Nat :=
  match l with
  | [d1, d2, '.', m1, m2, '.', y1, y2, y3, y4] =>
    if isDig d1 && isDig d2 && isDig m1 && isDig m2 &&
        isDig y1 && isDig y2 && isDig y3 && isDig y4 then
      let d := val2 d1 d2
      let m := val2 m1 m2
      let y := val4 y1 y2 y3 y4
      if 1 ≤ y && y ≤ 9999 && 1 ≤ m && m ≤ 12 && 1 ≤ d && d ≤ daysInMonth y m
      then .ok (dtm y m d 0 0)
      else .error ()
    else .error ()
  | _ => .error ()

/-- Python `datetime.strptime(s, "%H:%M")` on the exact five-character
match of the `HH:MM` regex: minutes past midnight, or an error. -/
def strptimeTime (l : List Char) : Except Unit Nat :=
  match l with
  | [h1, h2, ':', m1, m2] =>
    if isDig h1 && isDig h2 && isDig m1 && isDig m2 then
      let h := val2 h1 h2
      let mi := val2 m1 m2
      if h ≤ 23 && mi ≤ 59 then .ok (h * 60 + mi) else .error ()
    else .error ()
  | _ => .error ()

/-- Python `datetime.strptime(f"{d} {t}", "%d.%m.%Y %H:%M")`: the date
part is validated first, then the time part. -/
def strptimeDateTime (d t : List Char) : Except Unit Nat :=
  match strptimeDate d with
  | .error u => .error u
  | .ok a =>
    match strptimeTime t with
    | .error u => .error u
    | .ok b => .ok (a + b)

/-! ### Embedded regular-expression searches

The source uses three `re.search` patterns.  Each is embedded as a
leftmost-match scan: try to match at the current position, otherwise
advance one character.  All quantified pieces of the patterns (`\s*`,
`\s+`) are followed by a character the class cannot match, so greedy
matching without backtracking is exact. -/

/-- Match `\d{2}\.\d{2}\.\d{4}` exactly at the head of the list,
returning the ten matched characters and the rest. -/
def dateAt : List Char → Option (List Char × List Char)
  | d1 :: d2 :: '.' :: m1 :: m2 :: '.' :: y1 :: y2 :: y3 :: y4 :: rest =>
    if isDig d1 && isDig d2 && isDig m1 && isDig m2 &&
        isDig y1 && isDig y2 && isDig y3 && isDig y4 then
      some ([d1, d2, '.', m1, m2, '.', y1, y2, y3, y4], rest)
    else none
  | _ => none

/-- Match `\d{2}:\d{2}` exactly at the head of the list. -/
def timeAt : List Char → Option (List Char × List Char)
  | h1 :: h2 :: ':' :: m1 :: m2 :: rest =>
    if isDig h1 && isDig h2 && isDig m1 && isDig m2 then
      some ([h1, h2, ':', m1, m2], rest)
    else none
  | _ => none

/-- Does `re.search(r"\d{2}\.\d{2}\.\d{4}", l)` succeed? -/
def hasDateToken : List Char → Bool
  | [] => false
  | c :: rest => (dateAt (c :: rest)).isSome || hasDateToken rest

/-- Match the tail `\s*-\s*\d{2}\.\d{2}\.\d{4}` of the range pattern. -/
def rangeTail (l : List Char) : Option (List Char) :=
  match l.dropWhile isPySpace with
  | '-' :: r =>
    match dateAt (r.dropWhile isPySpace) with
    | some (d2, _) => some d2
    | none => none
  | _ => none

/-- `re.search(r"(\d{2}\.\d{2}\.\d{4})\s*-\s*(\d{2}\.\d{2}\.\d{4})", l)`:
the leftmost date range, as the two captured date strings. -/
def searchRange : List Char → Option (List Char × List Char)
  | [] => none
  | c :: rest =>
    match dateAt (c :: rest) with
    | some (d1, r) =>
      match rangeTail r with
      | some d2 => some (d1, d2)
      | none => searchRange rest
    | none => searchRange rest

/-- The optional group `(?:\s+(\d{2}:\d{2}))?` anchored after the date:
a run of at least one space followed by a time. -/
def optTime1 (l : List Char) : Option (List Char) × List Char :=
  let sp := l.takeWhile isPySpace
  if sp.isEmpty then (none, l)
  else
    match timeAt (l.dropWhile isPySpace) with
    | some (t, r) => (some t, r)
    | none => (none, l)

/-- The optional group `\s*(?:-\s*(\d{2}:\d{2}))?` anchored next. -/
def optTime2 (l : List Char) : Option (List Char) :=
  match l.dropWhile isPySpace with
  | '-' :: r =>
    match timeAt (r.dropWhile isPySpace) with
    | some (t, _) => some t
    | none => none
  | _ => none

/-- `re.search(r"(\d{2}\.\d{2}\.\d{4})(?:\s+(\d{2}:\d{2}))?\s*(?:-\s*(\d{2}:\d{2}))?", l)`:
anchored at the leftmost `DD.MM.YYYY` token, with two optional time
captures. -/
def searchDT : List Char → Option (List Char × Option (List Char) × Option (List Char))
  | [] => none
  | c :: rest =>
    match dateAt (c :: rest) with
    | some (d, r) =>
      let (t1, r1) := optTime1 r
      some (d, t1, optTime2 r1)
    | none => searchDT rest

/-! ### The term-text parser (lines 84–105 of the source)

Given the term text, the source first searches for a full date range;
otherwise it anchors at the leftmost date token and reads the optional
times.  `Except` models the `ValueError` that `strptime` raises on
numerals that do not form a valid date or time. -/

/-- Lines 84–105: turn a term text into the optional `(start, end)`
pair of the event, or a `strptime` error. -/
def parseTerm (t : String) : Except Unit (Option (Nat × Nat)) :=
  match searchRange t.data with
  | some (d1, d2) =>
    match strptimeDate d1 with
    | .error u => .error u
    | .ok s =>
      match strptimeDate d2 with
      | .error u => .error u
      | .ok e => .ok (some (s, e + oneDay))
  | none =>
    match searchDT t.data with
    | some (d, some t1, some t2) =>
      match strptimeDateTime d t1 with
      | .error u => .error u
      | .ok s =>
        match strptimeDateTime d t2 with
        | .error u => .error u
        | .ok e => .ok (some (s, e))
    | some (d, some t1, none) =>
      match strptimeDateTime d t1 with
      | .error u => .error u
      | .ok s => .ok (some (s, s + twoHours))
    | some (d, none, _) =>
      match strptimeDate d with
      | .error u => .error u
      | .ok s => .ok (some (s, s + oneDay))
    | none => .ok none

/-! ### The location search (lines 58–62 of the source) -/

/-- Case pairs (lower, upper) of the pattern word `Knihovna` under
`re.IGNORECASE`. -/
def kPairs : List (Char × Char) :=
  [('k', 'K'), ('n', 'N'), ('i', 'I'), ('h', 'H'), ('o', 'O'),
   ('v', 'V'), ('n', 'N'), ('a', 'A')]

/-- Case pairs of the pattern word `zájezd` under `re.IGNORECASE`. -/
def zPairs : List (Char × Char) :=
  [('z', 'Z'), ('á', 'Á'), ('j', 'J'), ('e', 'E'), ('z', 'Z'), ('d', 'D')]

/-- Case-insensitively match the pattern `pairs` at the head of `l`,
returning the matched original characters and the rest. -/
def matchCI : List (Char × Char) → List Char → Option (List Char × List Char)
  | [], l => some ([], l)
  | _ :: _, [] => none
  | (lo, up) :: ps, c :: l =>
    if c = lo || c = up then
      match matchCI ps l with
      | some (m, r) => some (c :: m, r)
      | none => none
    else none

/-- The trailing word boundary `\b`: end of string or a non-word
character. -/
def boundaryAfter : List Char → Bool
  | [] => true
  | c :: _ => !isWordChar c

/-- The leading word boundary: start of string (`prev = none`) or a
non-word previous character. -/
def boundaryBefore (prev : Option Char) : Bool :=
  match prev with
  | none => true
  | some c => !isWordChar c

/-- Try to match `\b(Knihovna|zájezd)\b` (ignoring case) at the current
position, `prev` being the character just before it. -/
def tryWord (prev : Option Char) (l : List Char) : Option (List Char) :=
  if boundaryBefore prev then
    match matchCI kPairs l with
    | some (m, r) => if boundaryAfter r then some m else none
    | none =>
      match matchCI zPairs l with
      | some (m, r) => if boundaryAfter r then some m else none
      | none => none
  else none

/-- Leftmost-match scan for `\b(Knihovna|zájezd)\b`. -/
def locSearchAux (prev : Option Char) : List Char → Option (List Char)
  | [] => none
  | c :: rest =>
    match tryWord prev (c :: rest) with
    | some m => some m
    | none => locSearchAux (some c) rest

/-- Lines 60–62: `re.search(r"\b(Knihovna|zájezd)\b", blob, re.IGNORECASE)`,
returning the captured group (original case). -/
def locSearch (blob : String) : Option String :=
  (locSearchAux none blob.data).map (fun m => ⟨m⟩)

/-- Python `str.capitalize()`: first character upper-cased, the rest
lower-cased. -/
def pyCapitalize (s : String) : String :=
  match s.data with
  | [] => ⟨[]⟩
  | c :: rest => ⟨pyUpperChar c :: rest.map pyLowerChar⟩

/-- Python `location or default`: `None` or an empty string falls back
to the default. -/
def pyOr (s : Option String) (d : String) : String :=
  match s with
  | none => d
  | some x => if x = "" then d else x

/-! ### The event record and the extractor (lines 28–125) -/

/-- One extracted event: the dictionary appended on lines 115–123.
`start` and `end` are optional because `build_ics` guards them with an
`is None` check on line 144; the extractor always fills both. -/
structure Event where
  uid : String
  title : String
  start : Option Nat
  ev_end : Option Nat
  location : String
  description : String
  url : String
deriving DecidableEq, Repr

/-- The fixed listing URL `LIST_URL`. -/
def LIST_URL : String := "https://www.knihovnavrdy.cz/akce"

/-- The time-zone identifier `TZID`. -/
def TZID : String := "Europe/Prague"

/-- Python's built-in `hash` on strings is randomised per process; no
claim depends on its value, so it is modelled by an arbitrary fixed
total function (a 31-ary polynomial hash), composed with `abs`. -/
def pyHashAbs (s : String) : Nat :=
  s.data.foldl (fun a c => (a * 31 + c.toNat) % 2305843009213693951) 0

/-- Lines 72–78: scan the lines of the blob for the first line that
either signals a missing date (contains `"Termín"` and, lower-cased,
`"neuveden"`) — in which case the term text is the constant
`"Termín neuveden"` — or contains a `DD.MM.YYYY` token — in which case
the term text is that line, stripped. -/
def termScanLines : List String → Option String
  | [] => none
  | line :: rest =>
    if pyContains line "Termín" && pyContains (pyLower line) "neuveden" then
      some "Termín neuveden"
    else if hasDateToken line.data then some (pyStrip line)
    else termScanLines rest

/-- The term-text scan over a whole blob. -/
def termScan (blob : String) : Option String :=
  termScanLines (pySplitlines blob)

/-- Lines 58–123 for a single `(title, blob)` pair: produce the event,
skip it (`none`), or propagate a `strptime` error. -/
def extractBlock (title blob : String) : Except Unit (Option Event) :=
  match termScan blob with
  | none => .ok none
  | some tt =>
    if pyStartsWith (pyLower tt) "termín neuveden" then .ok none
    else
      match parseTerm tt with
      | .error e => .error e
      | .ok none => .ok none
      | .ok (some (s, e)) =>
        .ok (some {
          uid := "knihovnavrdy-" ++ toString (pyHashAbs (title ++ tt)) ++ "@vrdy"
          title := title
          start := some s
          ev_end := some e
          location := pyOr ((locSearch blob).map pyCapitalize)
            "Knihovna F. V. Lorence Vrdy"
          description := pyStrip blob
          url := LIST_URL })

/-! ### The block segmenter (lines 42–56)

The page markup is modelled, after the external HTML parse, as the flat
list of sibling nodes the code iterates over: each node carries the tag
name Beautiful Soup reports (`none` for bare text nodes) and its
flattened text (`get_text` of the external library is modelled as an
accessor; `strip=True` is applied explicitly). -/

/-- One markup node as the code sees it: `getattr(sib, "name", None)`
and its flattened text. -/
structure SNode where
  name : Option String
  text : String
deriving DecidableEq, Repr

/-- Is this one of the sibling tags collected on line 50? -/
def isBlockTag (n : SNode) : Bool :=
  n.name = some "ul" || n.name = some "p" || n.name = some "div" ||
    n.name = some "span"

/-- Lines 47–53: collect the stripped non-empty texts of the siblings
following a heading, up to the next `h3` or the end. -/
def collectBlock : List SNode → List String
  | [] => []
  | n :: rest =>
    if n.name = some "h3" then []
    else if isBlockTag n && pyStrip n.text ≠ "" then
      pyStrip n.text :: collectBlock rest
    else collectBlock rest

/-- Lines 42–56: every `h3` yields the pair of its stripped text and
the blob `" \n".join(block)` of its following siblings. -/
def segment : List SNode → List (String × String)
  | [] => []
  | n :: rest =>
    if n.name = some "h3" then
      (pyStrip n.text, String.intercalate " \n" (collectBlock rest)) :: segment rest
    else segment rest

/-- The extraction loop of `parse_listing`: events are appended in
order; an exception raised for any block aborts the whole loop. -/
def extractAll : List (String × String) → Except Unit (List Event)
  | [] => .ok []
  | (t, b) :: rest =>
    match extractBlock t b with
    | .error e => .error e
    | .ok none => extractAll rest
    | .ok (some ev) =>
      match extractAll rest with
      | .error e => .error e
      | .ok evs => .ok (ev :: evs)

/-- `parse_listing` (lines 28–125), from the parsed node list. -/
def parse_listing (doc : List SNode) : Except Unit (List Event) :=
  extractAll (segment doc)

/-! ### The calendar encoder (lines 128–166) -/

/-- Left-pad a numeral with zeros to `w` digits (`strftime` padding). -/
def padNum (w n : Nat) : String :=
  let s := toString n
  ⟨List.replicate (w - s.data.length) '0' ++ s.data⟩

/-- `dt_local_ics` (lines 128–130): `strftime("%Y%m%dT%H%M%S")` of a
minute timestamp (seconds are always zero). -/
def dt_local_ics (mins : Nat) : String :=
  let (y, m, d) := daysToCivil (mins / 1440)
  padNum 4 y ++ padNum 2 m ++ padNum 2 d ++ "T" ++
    padNum 2 (mins % 1440 / 60) ++ padNum 2 (mins % 60) ++ "00"

/-- Python `s.replace(c, rep)` for a single-character pattern: every
occurrence is replaced, and replacement text is not rescanned. -/
def pyReplaceChar (c : Char) (rep : List Char) (s : String) : String :=
  ⟨s.data.flatMap (fun x => if x = c then rep else [x])⟩

/-- Modelled from the spec: the function `ics_escape` is called by
`build_ics` (lines 147–149) but its definition is missing from the
source file.  Following the spec's §4.4 — backslash first, then
newline, semicolon, comma: `s.replace` chained in that order. -/
def ics_escape (s : String) : String :=
  pyReplaceChar ',' ['\\', ',']
    (pyReplaceChar ';' ['\\', ';']
      (pyReplaceChar '\n' ['\\', 'n']
        (pyReplaceChar '\\' ['\\', '\\'] s)))

/-- The fixed preamble of the calendar document (lines 134–142). -/
def preambleLines : List String :=
  ["BEGIN:VCALENDAR",
   "PRODID:-//Vrdy Knihovna Scraper//CZ",
   "VERSION:2.0",
   "X-WR-TIMEZONE:" ++ TZID,
   "CALSCALE:GREGORIAN",
   "METHOD:PUBLISH",
   "X-WR-CALNAME:Knihovna Vrdy – Akce"]

/-- The lines appended for one event (lines 143–163); an event with a
missing start or end is passed over. -/
def eventLines (now : String) (ev : Event) : List String :=
  match ev.start, ev.ev_end with
  | some s, some e =>
    ["BEGIN:VEVENT",
     "UID:" ++ ev.uid,
     "DTSTAMP:" ++ now,
     "SUMMARY:" ++ ics_escape ev.title,
     "LOCATION:" ++ ics_escape ev.location,
     "DESCRIPTION:" ++ ics_escape ev.description,
     "URL:" ++ ev.url,
     "DTSTART;TZID=" ++ TZID ++ ":" ++ dt_local_ics s,
     "DTEND;TZID=" ++ TZID ++ ":" ++ dt_local_ics e,
     "END:VEVENT"]
  | _, _ => []

/-- The full line list built by `build_ics`; `now` is the
`datetime.utcnow()` stamp formatted on line 133, passed in as a
parameter of the model. -/
def build_ics_lines (now : String) (events : List Event) : List String :=
  preambleLines ++ events.flatMap (eventLines now) ++ ["END:VCALENDAR"]

/-- `build_ics` (lines 132–165): the lines joined with CRLF. -/
def build_ics (now : String) (events : List Event) : String :=
  String.intercalate "\r\n" (build_ics_lines now events)

/-! ### The driver (lines 21–24 and 168–179)

The network call itself is external; its outcome — a transport error,
or the final response `requests.get` returns — is the model's input.
`raise_for_status` raises exactly for status codes 400–599.  The
response body stands for the already-parsed node list, the HTML parse
being an external total function.  A `.ok` result of `mainModel` is the
document written to the output file; `.error` means the run aborted by
an uncaught exception before the output path was opened (the `open` on
line 177 comes after fetch, parse and encode). -/

/-- A transport-level failure of the GET call. -/
inductive ReqError where
  | connectionError
  | timeout
deriving DecidableEq, Repr

/-- The final HTTP response, its body parsed into nodes. -/
structure HttpResp where
  status : Nat
  body : List SNode
deriving DecidableEq, Repr

/-- An abort of the whole run. -/
inductive RunError where
  | transport (e : ReqError)
  | http (status : Nat)
  | pyError
deriving DecidableEq, Repr

/-- `fetch` (lines 21–24): `r.raise_for_status()` raises for 4xx and
5xx status codes, a transport error propagates. -/
def fetch (r : Except ReqError HttpResp) : Except RunError (List SNode) :=
  match r with
  | .error e => .error (.transport e)
  | .ok resp =>
    if 400 ≤ resp.status ∧ resp.status ≤ 599 then .error (.http resp.status)
    else .ok resp.body

/-- `main` (lines 168–179): fetch, parse, encode; the returned string
is the content written to the output file. -/
def mainModel (now : String) (r : Except ReqError HttpResp) :
    Except RunError String :=
  match fetch r with
  | .error e => .error e
  | .ok doc =>
    match parse_listing doc with
    | .error _ => .error .pyError
    | .ok events => .ok (build_ics now events)

/-! ### Decidability helpers and concrete inputs -/

instance {ε α : Type} [DecidableEq ε] [DecidableEq α] :
    DecidableEq (Except ε α) := fun a b =>
  match a, b with
  | .ok x, .ok y =>
    if h : x = y then .isTrue (by rw [h]) else .isFalse (by simp [h])
  | .error x, .error y =>
    if h : x = y then .isTrue (by rw [h]) else .isFalse (by simp [h])
  | .ok _, .error _ => .isFalse (by simp)
  | .error _, .ok _ => .isFalse (by simp)

/-- Does the extractor produce an event on this outcome? -/
def producedB (r : Except Unit (Option Event)) : Bool :=
  match r with
  | .ok (some _) => true
  | _ => false

/-- Does a produced event have a strictly increasing time range? -/
def startLtEnd (ev : Event) : Bool :=
  match ev.start, ev.ev_end with
  | some s, some e => s < e
  | _, _ => false

/-- A fallback event value, for extracting the head of a result list. -/
def defaultEvent : Event :=
  ⟨"", "", none, none, "", "", ""⟩

/-- A listing whose single event block carries a reversed date range. -/
def docReversed : List SNode :=
  [⟨some "h3", "A"⟩, ⟨some "p", "05.05.2025 - 01.01.2020"⟩]

/-- A listing whose term line is `TERMÍN NEUVEDEN` (upper case),
followed by a dated line. -/
def docUpperTermin : List SNode :=
  [⟨some "h3", "A"⟩, ⟨some "p", "TERMÍN NEUVEDEN"⟩, ⟨some "p", "05.05.2025"⟩]

/-- A listing with a whitespace-only heading over a dated block. -/
def docEmptyTitle : List SNode :=
  [⟨some "h3", "  "⟩, ⟨some "p", "05.05.2025"⟩]

/-- A listing whose term line matches the date-token regex but is not a
valid calendar date. -/
def docBadDate : List SNode :=
  [⟨some "h3", "A"⟩, ⟨some "p", "99.99.2025"⟩]

/-- The single event extracted from `docReversed`. -/
def evReversed : Event :=
  ((parse_listing docReversed).toOption.getD []).headD defaultEvent

/-- The single event extracted from `docEmptyTitle`. -/
def evEmptyTitle : Event :=
  ((parse_listing docEmptyTitle).toOption.getD []).headD defaultEvent

end KnihovnaVrdy

namespace KnihovnaVrdy

set_option maxRecDepth 4000

/-! ### Claim C2 (code bug) -/

/-- C2: the claim says the extractor never raises on malformed input.
The code violates it: the term line `99.99.2025` matches the
`DD.MM.YYYY` token regex, so it becomes the term text, and
`datetime.strptime("99.99.2025", "%d.%m.%Y")` raises `ValueError`,
which propagates out of `parse_listing`.  The model evaluates the code
at this failing input. -/
theorem c2_extractor_raises_on_invalid_date :
    parse_listing docBadDate = .error () := by decide

/-! ### Claim C9 (empty calendar) -/

/-- C9: on the empty event list `build_ics` emits exactly the seven
fixed preamble lines followed by `END:VCALENDAR`, joined by CRLF, with
no VEVENT entry and no trailing line terminator. -/
theorem c9_empty_calendar (now : String) :
    build_ics_lines now [] = preambleLines ++ ["END:VCALENDAR"] ∧
    preambleLines.length = 7 ∧
    build_ics now [] =
      "BEGIN:VCALENDAR\r\nPRODID:-//Vrdy Knihovna Scraper//CZ\r\nVERSION:2.0\r\nX-WR-TIMEZONE:Europe/Prague\r\nCALSCALE:GREGORIAN\r\nMETHOD:PUBLISH\r\nX-WR-CALNAME:Knihovna Vrdy – Akce\r\nEND:VCALENDAR" := by
  refine ⟨rfl, rfl, ?_⟩
  rfl

/-! ### Claim C1: text escaping -/

/-- The claim's per-character escaping map: backslash doubled, newline
to the two-character sequence backslash-n, semicolon and comma prefixed
with a backslash, everything else unchanged. -/
def escSpecChar (c : Char) : List Char :=
  if c = '\\' then ['\\', '\\']
  else if c = '\n' then ['\\', 'n']
  else if c = ';' then ['\\', ';']
  else if c = ',' then ['\\', ',']
  else [c]

/-- The backslash replacement step of `ics_escape`. -/
def rep1 : Char → List Char := fun x => if x = '\\' then ['\\', '\\'] else [x]

/-- The newline replacement step. -/
def rep2 : Char → List Char := fun x => if x = '\n' then ['\\', 'n'] else [x]

/-- The semicolon replacement step. -/
def rep3 : Char → List Char := fun x => if x = ';' then ['\\', ';'] else [x]

/-- The comma replacement step. -/
def rep4 : Char → List Char := fun x => if x = ',' then ['\\', ','] else [x]

/-- The chain of the four sequential replacements collapses to a single
pass of the claim's per-character map: replacements introduced by the
later steps are never re-escaped, because the backslash step comes
first. -/
theorem escape_chain (l : List Char) :
    (((l.flatMap rep1).flatMap rep2).flatMap rep3).flatMap rep4 =
      l.flatMap escSpecChar := by
  induction l with
  | nil => rfl
  | cons c t ih =>
    show ((((rep1 c ++ t.flatMap rep1).flatMap rep2).flatMap rep3).flatMap rep4) = _
    rw [List.flatMap_append, List.flatMap_append, List.flatMap_append, ih]
    by_cases h1 : c = '\\'
    · subst h1; rfl
    by_cases h2 : c = '\n'
    · subst h2; rfl
    by_cases h3 : c = ';'
    · subst h3; rfl
    by_cases h4 : c = ','
    · subst h4; rfl
    simp [rep1, rep2, rep3, rep4, escSpecChar, h1, h2, h3, h4]

/-- C1: `ics_escape` equals a single pass of the claim's per-character
map (so escape sequences introduced by later replacements are not
re-escaped), and the encoder applies it to exactly the title, location
and description fields of every emitted event entry. -/
theorem c1_escaping :
    (∀ s : String, ics_escape s = ⟨s.data.flatMap escSpecChar⟩) ∧
    (∀ (now uid title : String) (s e : Nat) (loc desc url : String),
      eventLines now ⟨uid, title, some s, some e, loc, desc, url⟩ =
        ["BEGIN:VEVENT",
         "UID:" ++ uid,
         "DTSTAMP:" ++ now,
         "SUMMARY:" ++ ics_escape title,
         "LOCATION:" ++ ics_escape loc,
         "DESCRIPTION:" ++ ics_escape desc,
         "URL:" ++ url,
         "DTSTART;TZID=" ++ TZID ++ ":" ++ dt_local_ics s,
         "DTEND;TZID=" ++ TZID ++ ":" ++ dt_local_ics e,
         "END:VEVENT"]) := by
  constructor
  · intro s
    show (⟨(((s.data.flatMap rep1).flatMap rep2).flatMap rep3).flatMap rep4⟩ : String) = _
    rw [escape_chain]
  · intro now uid title s e loc desc url
    rfl

/-! ### Counterexamples for claims C3, C4, C5, C6, C8 -/

/-- C3 counterexample: the reversed range `05.05.2025 - 01.01.2020` is
accepted by the extractor and produces an event whose start (midnight
of 2025-05-05) is strictly *after* its end (midnight of 2020-01-02), so
the claimed invariant `start < end` fails on the code. -/
theorem c3_counterexample :
    parse_listing docReversed = .ok [evReversed] ∧
    evReversed.start = some (dtm 2025 5 5 0 0) ∧
    evReversed.ev_end = some (dtm 2020 1 2 0 0) ∧
    ¬ dtm 2025 5 5 0 0 < dtm 2020 1 2 0 0 := by
  refine ⟨by decide, by decide, by decide, by decide⟩

/-- C4 counterexample: for the term text
`01.01.2025 18.09.2025 19:00 - 21:10` the pattern
`DD.MM.YYYY HH:MM - HH:MM` occurs in the text, so by the claimed
priority order the result should be 19:00–21:10 on 2025-09-18; the code
instead anchors at the leftmost date token `01.01.2025`, finds no
adjacent time, and falls through to the bare-date case. -/
theorem c4_counterexample :
    parseTerm "01.01.2025 18.09.2025 19:00 - 21:10" =
      .ok (some (dtm 2025 1 1 0 0, dtm 2025 1 1 0 0 + oneDay)) ∧
    dtm 2025 1 1 0 0 ≠ dtm 2025 9 18 19 0 := by
  refine ⟨by decide, by decide⟩

/-- C5 counterexample: the block whose first date-signalling line is
`TERMÍN NEUVEDEN` (an upper-case variant of the no-date phrase) is not
skipped: the case-sensitive check of the source (`"Termín" in line`)
fails on it, the scan moves on to the dated line `05.05.2025`, and the
event is present in the extractor's output. -/
theorem c5_counterexample :
    (parse_listing docUpperTermin).map (List.map Event.title) = .ok ["A"] := by
  decide

/-- C6 counterexample: a heading whose flattened text is whitespace-only
(stripped to the empty string) is not skipped; its dated block yields an
event whose title is the empty string. -/
theorem c6_counterexample :
    parse_listing docEmptyTitle = .ok [evEmptyTitle] ∧
    evEmptyTitle.title = "" := by
  refine ⟨by decide, by decide⟩

/-- C8 counterexample: a final response with the non-2xx status 304 is
not a `raise_for_status` error (only 4xx/5xx raise), so the run does not
terminate: it proceeds and writes an output file (here the empty
calendar for an empty body). -/
theorem c8_counterexample :
    ¬ (200 ≤ 304 ∧ 304 ≤ 299) ∧
    mainModel "X" (.ok ⟨304, []⟩) = .ok (build_ics "X" []) := by
  refine ⟨by decide, by decide⟩

/-! ### Claim C7: document structure -/

theorem prefixCheck_append (l r : List Char) : prefixCheck l (l ++ r) = true := by
  induction l with
  | nil => rfl
  | cons c t ih => simp [prefixCheck, ih]

/-- A string with prefix `p` cannot equal a string `t` that does not
start with `p`. -/
theorem prefixed_ne (p s t : String) (h : prefixCheck p.data t.data = false) :
    p ++ s ≠ t := by
  intro he
  have hd : p.data ++ s.data = t.data := by rw [← String.data_append, he]
  rw [← hd, prefixCheck_append] at h
  exact Bool.noConfusion h

/-- Is an event retained by the encoder (both timestamps present)? -/
def retainedB (ev : Event) : Bool := ev.start.isSome && ev.ev_end.isSome

/-- The VEVENT delimiters occur exactly once in the entry of a retained
event and never in that of a dropped one. -/
theorem eventLines_count (now : String) (ev : Event) :
    (eventLines now ev).count "BEGIN:VEVENT" = (if retainedB ev then 1 else 0) ∧
    (eventLines now ev).count "END:VEVENT" = (if retainedB ev then 1 else 0) := by
  match hs : ev.start, he : ev.ev_end with
  | none, _ =>
    constructor <;> simp [eventLines, retainedB, hs, List.count_nil]
  | some s, none =>
    constructor <;> simp [eventLines, retainedB, hs, he, List.count_nil]
  | some s, some e =>
    have h1 : ("UID:" ++ ev.uid) ≠ "BEGIN:VEVENT" := prefixed_ne _ _ _ (by decide)
    have h2 : ("DTSTAMP:" ++ now) ≠ "BEGIN:VEVENT" := prefixed_ne _ _ _ (by decide)
    have h3 : ("SUMMARY:" ++ ics_escape ev.title) ≠ "BEGIN:VEVENT" :=
      prefixed_ne _ _ _ (by decide)
    have h4 : ("LOCATION:" ++ ics_escape ev.location) ≠ "BEGIN:VEVENT" :=
      prefixed_ne _ _ _ (by decide)
    have h5 : ("DESCRIPTION:" ++ ics_escape ev.description) ≠ "BEGIN:VEVENT" :=
      prefixed_ne _ _ _ (by decide)
    have h6 : ("URL:" ++ ev.url) ≠ "BEGIN:VEVENT" := prefixed_ne _ _ _ (by decide)
    have h7 : ("DTSTART;TZID=" ++ TZID ++ ":" ++ dt_local_ics s) ≠ "BEGIN:VEVENT" := by
      rw [String.append_assoc, String.append_assoc]
      exact prefixed_ne _ _ _ (by decide)
    have h8 : ("DTEND;TZID=" ++ TZID ++ ":" ++ dt_local_ics e) ≠ "BEGIN:VEVENT" := by
      rw [String.append_assoc, String.append_assoc]
      exact prefixed_ne _ _ _ (by decide)
    have g1 : ("UID:" ++ ev.uid) ≠ "END:VEVENT" := prefixed_ne _ _ _ (by decide)
    have g2 : ("DTSTAMP:" ++ now) ≠ "END:VEVENT" := prefixed_ne _ _ _ (by decide)
    have g3 : ("SUMMARY:" ++ ics_escape ev.title) ≠ "END:VEVENT" :=
      prefixed_ne _ _ _ (by decide)
    have g4 : ("LOCATION:" ++ ics_escape ev.location) ≠ "END:VEVENT" :=
      prefixed_ne _ _ _ (by decide)
    have g5 : ("DESCRIPTION:" ++ ics_escape ev.description) ≠ "END:VEVENT" :=
      prefixed_ne _ _ _ (by decide)
    have g6 : ("URL:" ++ ev.url) ≠ "END:VEVENT" := prefixed_ne _ _ _ (by decide)
    have g7 : ("DTSTART;TZID=" ++ TZID ++ ":" ++ dt_local_ics s) ≠ "END:VEVENT" := by
      rw [String.append_assoc, String.append_assoc]
      exact prefixed_ne _ _ _ (by decide)
    have g8 : ("DTEND;TZID=" ++ TZID ++ ":" ++ dt_local_ics e) ≠ "END:VEVENT" := by
      rw [String.append_assoc, String.append_assoc]
      exact prefixed_ne _ _ _ (by decide)
    constructor <;>
      simp [eventLines, retainedB, hs, he, List.count_cons, List.count_nil,
        h1, h2, h3, h4, h5, h6, h7, h8, g1, g2, g3, g4, g5, g6, g7, g8]

/-- The retained-event count of the flattened entry blocks. -/
theorem flat_count (now : String) (evs : List Event) :
    (evs.flatMap (eventLines now)).count "BEGIN:VEVENT" =
      (evs.filter retainedB).length ∧
    (evs.flatMap (eventLines now)).count "END:VEVENT" =
      (evs.filter retainedB).length := by
  induction evs with
  | nil => exact ⟨rfl, rfl⟩
  | cons ev t ih =>
    have hc := eventLines_count now ev
    show ((eventLines now ev ++ t.flatMap (eventLines now)).count _ = _) ∧
      ((eventLines now ev ++ t.flatMap (eventLines now)).count _ = _)
    rw [List.count_append, List.count_append, hc.1, hc.2, ih.1, ih.2]
    by_cases h : retainedB ev = true
    · simp [List.filter_cons, h, Nat.add_comm]
    · simp [List.filter_cons, h]

/-- C7: for every event list and every stamp, the encoded document's
line list begins with `BEGIN:VCALENDAR`, ends with `END:VCALENDAR`,
contains exactly one `BEGIN:VEVENT` and one `END:VEVENT` line per
retained event (an event with both timestamps present), and the
document is those lines joined by CRLF. -/
theorem c7_document_structure (now : String) (evs : List Event) :
    (build_ics_lines now evs).head? = some "BEGIN:VCALENDAR" ∧
    (build_ics_lines now evs).getLast? = some "END:VCALENDAR" ∧
    (build_ics_lines now evs).count "BEGIN:VEVENT" =
      (evs.filter retainedB).length ∧
    (build_ics_lines now evs).count "END:VEVENT" =
      (evs.filter retainedB).length ∧
    build_ics now evs = String.intercalate "\r\n" (build_ics_lines now evs) := by
  refine ⟨rfl, ?_, ?_, ?_, rfl⟩
  · show ((preambleLines ++ evs.flatMap (eventLines now)) ++
      ["END:VCALENDAR"]).getLast? = _
    rw [List.getLast?_concat]
  · show ((preambleLines ++ evs.flatMap (eventLines now)) ++
      ["END:VCALENDAR"]).count _ = _
    rw [List.count_append, List.count_append, (flat_count now evs).1]
    have hp : preambleLines.count "BEGIN:VEVENT" = 0 := by decide
    have hq : (["END:VCALENDAR"] : List String).count "BEGIN:VEVENT" = 0 := by decide
    omega
  · show ((preambleLines ++ evs.flatMap (eventLines now)) ++
      ["END:VCALENDAR"]).count _ = _
    rw [List.count_append, List.count_append, (flat_count now evs).2]
    have hp : preambleLines.count "END:VEVENT" = 0 := by decide
    have hq : (["END:VCALENDAR"] : List String).count "END:VEVENT" = 0 := by decide
    omega

/-! ### Claim C3 (amended): start strictly before end

The unamended claim fails (see the counterexample above) because the
code accepts a reversed date range or a reversed time range as is.  The
amended claim adds exactly the sanity conditions those two
counterexample shapes force: in a matched date range the second date is
not before the first, and in a matched time range the end time is
strictly after the start time. -/

/-- Term-text sanity for the range pattern: if a `DD.MM.YYYY - DD.MM.YYYY`
range is matched and both dates are valid, the second is not earlier. -/
def rangeOK (t : String) : Bool :=
  match searchRange t.data with
  | some (d1, d2) =>
    match strptimeDate d1, strptimeDate d2 with
    | .ok a, .ok b => decide (a ≤ b)
    | _, _ => true
  | none => true

/-- Term-text sanity for the time-range pattern: if both times of a
`DD.MM.YYYY HH:MM - HH:MM` match are valid, the second is later. -/
def timesOK (t : String) : Bool :=
  match searchRange t.data with
  | some _ => true
  | none =>
    match searchDT t.data with
    | some (_, some t1, some t2) =>
      match strptimeTime t1, strptimeTime t2 with
      | .ok x, .ok y => decide (x < y)
      | _, _ => true
    | _ => true

/-- A sane term text: no reversed date range and no reversed time range. -/
def goodTermB (t : String) : Bool := rangeOK t && timesOK t

/-- Every stripped line of every block of the listing is a sane term
text. -/
def docGood (doc : List SNode) : Bool :=
  (segment doc).all fun p =>
    (pySplitlines p.2).all fun line => goodTermB (pyStrip line)

/-- On a sane term text, a successfully parsed pair is strictly
increasing: the two one-sided fallbacks add a positive duration, and
the two range forms are ordered by sanity. -/
theorem parseTerm_good (t : String) (s e : Nat)
    (hg : goodTermB t = true) (hp : parseTerm t = .ok (some (s, e))) :
    s < e := by
  have hg1 : rangeOK t = true := (Bool.and_eq_true _ _ |>.mp hg).1
  have hg2 : timesOK t = true := (Bool.and_eq_true _ _ |>.mp hg).2
  unfold parseTerm at hp
  unfold rangeOK at hg1
  unfold timesOK at hg2
  rcases hr : searchRange t.data with _ | ⟨d1, d2⟩ <;>
    simp only [hr] at hp hg1 hg2
  · rcases hdt : searchDT t.data with _ | ⟨d, t1, t2⟩
    · simp only [hdt] at hp
      exact absurd hp (by simp)
    rcases t1 with _ | t1
    · simp only [hdt] at hp
      rcases hd : strptimeDate d with u | a <;> simp only [hd] at hp
      · exact absurd hp (by simp)
      injection hp with hp; injection hp with hp
      injection hp with hp1 hp2
      subst hp1; subst hp2
      simp [oneDay]
    rcases t2 with _ | t2
    · simp only [hdt] at hp
      rcases hd : strptimeDateTime d t1 with u | a <;> simp only [hd] at hp
      · exact absurd hp (by simp)
      injection hp with hp; injection hp with hp
      injection hp with hp1 hp2
      subst hp1; subst hp2
      simp [twoHours]
    · simp only [hdt] at hp hg2
      rcases hd1 : strptimeDateTime d t1 with u | a <;> simp only [hd1] at hp
      · exact absurd hp (by simp)
      rcases hd2 : strptimeDateTime d t2 with u | b <;> simp only [hd2] at hp
      · exact absurd hp (by simp)
      injection hp with hp; injection hp with hp
      injection hp with hp1 hp2
      subst hp1; subst hp2
      unfold strptimeDateTime at hd1 hd2
      rcases hdd : strptimeDate d with u | A <;> simp only [hdd] at hd1 hd2
      · exact absurd hd1 (by simp)
      rcases ht1 : strptimeTime t1 with u | x <;> simp only [ht1] at hd1 hg2
      · exact absurd hd1 (by simp)
      rcases ht2 : strptimeTime t2 with u | y <;> simp only [ht2] at hd2 hg2
      · exact absurd hd2 (by simp)
      injection hd1 with hd1; injection hd2 with hd2
      have hxy : x < y := of_decide_eq_true hg2
      omega
  · rcases hd1 : strptimeDate d1 with u | a <;> simp only [hd1] at hp hg1
    · exact absurd hp (by simp)
    rcases hd2 : strptimeDate d2 with u | b <;> simp only [hd2] at hp hg1
    · exact absurd hp (by simp)
    injection hp with hp; injection hp with hp
    injection hp with hp1 hp2
    subst hp1; subst hp2
    have hab : a ≤ b := of_decide_eq_true hg1
    simp only [oneDay]
    omega

/-- The term scan yields either the constant no-date marker or the
stripped form of one of the scanned lines. -/
theorem termScanLines_mem (lines : List String) (t : String)
    (h : termScanLines lines = some t) :
    t = "Termín neuveden" ∨ ∃ line ∈ lines, t = pyStrip line := by
  induction lines with
  | nil => exact absurd h (by simp [termScanLines])
  | cons line rest ih =>
    unfold termScanLines at h
    by_cases h1 : (pyContains line "Termín" &&
        pyContains (pyLower line) "neuveden") = true
    · rw [if_pos h1] at h
      injection h with h
      exact Or.inl h.symm
    · rw [if_neg h1] at h
      by_cases h2 : hasDateToken line.data = true
      · rw [if_pos h2] at h
        injection h with h
        exact Or.inr ⟨line, by simp, h.symm⟩
      · rw [if_neg h2] at h
        rcases ih h with hl | ⟨l, hm, he⟩
        · exact Or.inl hl
        · exact Or.inr ⟨l, by simp [hm], he⟩

/-- A produced event's timestamps come from a successful `parseTerm` of
the scanned term text, which did not start with the no-date phrase. -/
theorem extractBlock_start_end (title blob : String) (ev : Event)
    (h : extractBlock title blob = .ok (some ev)) :
    ∃ tt, termScan blob = some tt ∧
      pyStartsWith (pyLower tt) "termín neuveden" = false ∧
      ∃ s e, parseTerm tt = .ok (some (s, e)) ∧
        ev.start = some s ∧ ev.ev_end = some e := by
  unfold extractBlock at h
  rcases ht : termScan blob with _ | tt <;> simp only [ht] at h
  · exact absurd h (by simp)
  by_cases hsw : pyStartsWith (pyLower tt) "termín neuveden" = true
  · rw [if_pos hsw] at h; exact absurd h (by simp)
  rw [if_neg hsw] at h
  rcases hpt : parseTerm tt with u | o <;> simp only [hpt] at h
  · exact absurd h (by simp)
  rcases o with _ | ⟨s, e⟩
  · exact absurd h (by simp)
  injection h with h; injection h with h
  refine ⟨tt, rfl, Bool.eq_false_iff.mpr hsw, s, e, hpt, ?_, ?_⟩ <;>
    rw [← h]

/-- Every event in the output of the extraction loop comes from one of
the segmented blocks. -/
theorem extractAll_mem (segs : List (String × String)) (evs : List Event)
    (ev : Event) (h : extractAll segs = .ok evs) (hm : ev ∈ evs) :
    ∃ p ∈ segs, extractBlock p.1 p.2 = .ok (some ev) := by
  induction segs generalizing evs with
  | nil =>
    unfold extractAll at h
    injection h with h
    rw [← h] at hm
    exact absurd hm (by simp)
  | cons p rest ih =>
    obtain ⟨pt, pb⟩ := p
    unfold extractAll at h
    rcases hb : extractBlock pt pb with u | o <;> simp only [hb] at h
    · exact absurd h (by simp)
    rcases o with _ | ev'
    · rcases ih evs h hm with ⟨q, hq, hqe⟩
      exact ⟨q, by simp [hq], hqe⟩
    rcases hrest : extractAll rest with u | evs' <;> simp only [hrest] at h
    · exact absurd h (by simp)
    injection h with h
    rw [← h] at hm
    rcases List.mem_cons.mp hm with he | he
    · exact ⟨(pt, pb), by simp, by rw [hb, he]⟩
    · rcases ih evs' hrest he with ⟨q, hq, hqe⟩
      exact ⟨q, by simp [hq], hqe⟩

/-- C3 (amended): every event produced by the extractor from a listing
whose term lines contain no reversed date range and no reversed time
range has its start strictly before its end. -/
theorem c3_amended_start_lt_end (doc : List SNode) (evs : List Event)
    (ev : Event) (s e : Nat)
    (hgood : docGood doc = true)
    (hp : parse_listing doc = .ok evs) (hm : ev ∈ evs)
    (hs : ev.start = some s) (he : ev.ev_end = some e) :
    s < e := by
  rcases extractAll_mem (segment doc) evs ev hp hm with ⟨q, hq, hqe⟩
  rcases extractBlock_start_end q.1 q.2 ev hqe with
    ⟨tt, htt, hsw, s', e', hpt, hs', he'⟩
  have hss : s = s' := by rw [hs] at hs'; injection hs'
  have hee : e = e' := by rw [he] at he'; injection he'
  subst hss; subst hee
  rcases termScanLines_mem (pySplitlines q.2) tt htt with hconst | ⟨line, hl, hts⟩
  · rw [hconst] at hsw
    exact absurd hsw (by decide)
  have hgl : goodTermB (pyStrip line) = true := by
    have h1 := (List.all_eq_true.mp hgood) q hq
    exact (List.all_eq_true.mp h1) line hl
  rw [hts] at hpt
  exact parseTerm_good (pyStrip line) s e hgl hpt

/-- The spec's own range vector, as a listing. -/
def docRangeVector : List SNode :=
  [⟨some "h3", "A"⟩, ⟨some "p", "10.09.2025 - 12.09.2025"⟩]

/-- The single event extracted from `docRangeVector`. -/
def evRangeVector : Event :=
  ((parse_listing docRangeVector).toOption.getD []).headD defaultEvent

/-- Witness for the amended C3 at the spec's own range vector. -/
theorem c3_amended_witness :
    docGood docRangeVector = true ∧
    dtm 2025 9 10 0 0 < dtm 2025 9 13 0 0 := by
  constructor
  · decide
  · exact c3_amended_start_lt_end docRangeVector [evRangeVector] evRangeVector
      (dtm 2025 9 10 0 0) (dtm 2025 9 13 0 0) (by decide) (by decide)
      (by decide) (by decide) (by decide)

/-! ### Claim C5 (amended): skipping undated events

The unamended claim fails (see the counterexample above): the phrase
check of the source is case-sensitive in its `"Termín"` half.  The
amendment states the condition the code actually implements: a line
containing the exact-case substring `Termín` and, case-insensitively,
`neuveden`, encountered before any date-bearing line, causes the whole
event to be skipped. -/

/-- The scan stops with the no-date marker on the first line that
satisfies the code's condition, provided no earlier line satisfied
either branch. -/
theorem termScanLines_termin (before after : List String) (line : String)
    (hA : pyContains line "Termín" = true)
    (hB : pyContains (pyLower line) "neuveden" = true)
    (hprev : ∀ l ∈ before,
      (pyContains l "Termín" && pyContains (pyLower l) "neuveden") = false ∧
        hasDateToken l.data = false) :
    termScanLines (before ++ line :: after) = some "Termín neuveden" := by
  induction before with
  | nil =>
    simp only [List.nil_append, termScanLines]
    rw [if_pos (by rw [hA, hB]; rfl)]
  | cons l rest ih =>
    have hl := hprev l (by simp)
    simp only [List.cons_append, termScanLines]
    rw [if_neg (by rw [hl.1]; exact Bool.false_ne_true), if_neg (by
      rw [hl.2]; exact Bool.false_ne_true)]
    exact ih (fun x hx => hprev x (by simp [hx]))

/-- C5 (amended): if some line of the block contains the exact-case
substring `Termín` together with a case-insensitive `neuveden`, and
every earlier line of the block neither satisfies that condition nor
carries a `DD.MM.YYYY` token, then the extractor skips the event, so it
is never present in the output. -/
theorem c5_amended_termin_skip (title blob : String)
    (before after : List String) (line : String)
    (hsplit : pySplitlines blob = before ++ line :: after)
    (hA : pyContains line "Termín" = true)
    (hB : pyContains (pyLower line) "neuveden" = true)
    (hprev : ∀ l ∈ before,
      (pyContains l "Termín" && pyContains (pyLower l) "neuveden") = false ∧
        hasDateToken l.data = false) :
    extractBlock title blob = .ok none := by
  have ht : termScan blob = some "Termín neuveden" := by
    unfold termScan
    rw [hsplit]
    exact termScanLines_termin before after line hA hB hprev
  unfold extractBlock
  simp only [ht]
  rw [if_pos (by decide)]

/-- Witness for the amended C5 on a one-line undated block. -/
theorem c5_amended_witness :
    pySplitlines "Termín neuveden" = [] ++ "Termín neuveden" :: [] ∧
    extractBlock "A" "Termín neuveden" = .ok none := by
  refine ⟨by decide, ?_⟩
  exact c5_amended_termin_skip "A" "Termín neuveden" [] [] "Termín neuveden"
    (by decide) (by decide) (by decide) (fun l hl => absurd hl (by simp))

/-! ### Claim C6 (amended): no title-based skipping

The unamended claim fails (see the counterexample above): the code
never tests the heading text.  The amendment: whether an event is
produced does not depend on the heading text at all, and the produced
event carries the heading text — possibly empty — as its title. -/

/-- C6 (amended): the extractor performs no empty-title filtering —
the production of an event is independent of the title argument, and a
produced event's title is exactly the given (possibly empty) heading
text. -/
theorem c6_amended_no_title_skip (title title2 blob : String) :
    producedB (extractBlock title blob) = producedB (extractBlock title2 blob) ∧
    ∀ ev, extractBlock title blob = .ok (some ev) → ev.title = title := by
  constructor
  · rcases ht : termScan blob with _ | tt
    · unfold extractBlock
      simp only [ht]
    · unfold extractBlock
      simp only [ht]
      by_cases hsw : pyStartsWith (pyLower tt) "termín neuveden" = true
      · rw [if_pos hsw, if_pos hsw]
      rw [if_neg hsw, if_neg hsw]
      rcases parseTerm tt with u | o
      · rfl
      rcases o with _ | ⟨s, e⟩ <;> rfl
  · intro ev h
    unfold extractBlock at h
    rcases ht : termScan blob with _ | tt <;> simp only [ht] at h
    · exact absurd h (by simp)
    by_cases hsw : pyStartsWith (pyLower tt) "termín neuveden" = true
    · rw [if_pos hsw] at h; exact absurd h (by simp)
    rw [if_neg hsw] at h
    rcases hpt : parseTerm tt with u | o <;> simp only [hpt] at h
    · exact absurd h (by simp)
    rcases o with _ | ⟨s, e⟩
    · exact absurd h (by simp)
    injection h with h; injection h with h
    rw [← h]

/-- The event the extractor produces for an empty heading over a dated
block. -/
def evC6W : Event :=
  ((extractBlock "" "05.05.2025").toOption.getD none).getD defaultEvent

/-- Witness for the amended C6: an empty heading still yields an event,
and its title is the empty string. -/
theorem c6_amended_witness :
    producedB (extractBlock "" "05.05.2025") = true ∧ evC6W.title = "" := by
  refine ⟨by decide, ?_⟩
  exact (c6_amended_no_title_skip "" "x" "05.05.2025").2 evC6W (by decide)

/-! ### Claim C4 (amended): date-pattern priority

The unamended claim fails (see the counterexample above) because the
timed patterns are not searched independently: after the range search
fails, the code anchors at the *leftmost* `DD.MM.YYYY` token and looks
for the optional times right there.  The amended claim: the range
pattern is searched anywhere first; otherwise the leftmost date token
anchors the three remaining cases (time range, lone start time with a
two-hour fallback, bare date with a one-day span); with no date token
at all, no timestamps are produced and the event is dropped. -/

/-- C4 (amended): the spec's four concrete vectors evaluate as claimed,
and in general the term parser applies the range pattern first, then
the time patterns anchored at the leftmost date token, dropping the
event when no date token occurs. -/
theorem c4_amended_priority :
    parseTerm "10.09.2025 - 12.09.2025" =
      .ok (some (dtm 2025 9 10 0 0, dtm 2025 9 13 0 0)) ∧
    parseTerm "18.09.2025 19:00 - 21:10" =
      .ok (some (dtm 2025 9 18 19 0, dtm 2025 9 18 21 10)) ∧
    parseTerm "18.09.2025 19:00" =
      .ok (some (dtm 2025 9 18 19 0, dtm 2025 9 18 19 0 + twoHours)) ∧
    parseTerm "18.09.2025" =
      .ok (some (dtm 2025 9 18 0 0, dtm 2025 9 18 0 0 + oneDay)) ∧
    (∀ (t : String) (d1 d2 : List Char),
      searchRange t.data = some (d1, d2) →
      parseTerm t =
        match strptimeDate d1 with
        | .error u => .error u
        | .ok s =>
          match strptimeDate d2 with
          | .error u => .error u
          | .ok e => .ok (some (s, e + oneDay))) ∧
    (∀ (t : String) (d : List Char) (t1 t2 : List Char),
      searchRange t.data = none →
      searchDT t.data = some (d, some t1, some t2) →
      parseTerm t =
        match strptimeDateTime d t1 with
        | .error u => .error u
        | .ok s =>
          match strptimeDateTime d t2 with
          | .error u => .error u
          | .ok e => .ok (some (s, e))) ∧
    (∀ (t : String) (d : List Char) (t1 : List Char),
      searchRange t.data = none →
      searchDT t.data = some (d, some t1, none) →
      parseTerm t =
        match strptimeDateTime d t1 with
        | .error u => .error u
        | .ok s => .ok (some (s, s + twoHours))) ∧
    (∀ (t : String) (d : List Char) (t2 : Option (List Char)),
      searchRange t.data = none →
      searchDT t.data = some (d, none, t2) →
      parseTerm t =
        match strptimeDate d with
        | .error u => .error u
        | .ok s => .ok (some (s, s + oneDay))) ∧
    (∀ t : String, searchRange t.data = none → searchDT t.data = none →
      parseTerm t = .ok none) ∧
    (∀ (title blob tt : String), termScan blob = some tt →
      parseTerm tt = .ok none → extractBlock title blob = .ok none) := by
  refine ⟨by decide, by decide, by decide, by decide, ?_, ?_, ?_, ?_, ?_, ?_⟩
  · intro t d1 d2 hr
    unfold parseTerm
    rw [hr]
  · intro t d t1 t2 hr hdt
    unfold parseTerm
    rw [hr, hdt]
  · intro t d t1 hr hdt
    unfold parseTerm
    rw [hr, hdt]
  · intro t d t2 hr hdt
    unfold parseTerm
    rw [hr, hdt]
  · intro t hr hdt
    unfold parseTerm
    rw [hr, hdt]
  · intro title blob tt ht hpt
    unfold extractBlock
    simp only [ht]
    by_cases hsw : pyStartsWith (pyLower tt) "termín neuveden" = true
    · rw [if_pos hsw]
    · rw [if_neg hsw]
      simp only [hpt]

/-- Witness for the amended C4 at the spec's range vector and a
dateless term text. -/
theorem c4_amended_witness :
    searchRange ("10.09.2025 - 12.09.2025" : String).data =
      some ("10.09.2025".data, "12.09.2025".data) ∧
    parseTerm "10.09.2025 - 12.09.2025" =
      .ok (some (dtm 2025 9 10 0 0, dtm 2025 9 13 0 0)) ∧
    parseTerm "v průběhu roku" = .ok none := by
  refine ⟨by decide, ?_, ?_⟩
  · have h := c4_amended_priority.2.2.2.2.1 "10.09.2025 - 12.09.2025"
      "10.09.2025".data "12.09.2025".data (by decide)
    rw [h]
    decide
  · exact c4_amended_priority.2.2.2.2.2.2.2.2.1 "v průběhu roku"
      (by decide) (by decide)

/-! ### Claim C8 (amended): transport failures abort before the write

The unamended claim fails for non-2xx statuses outside 400–599 (see the
304 counterexample): `raise_for_status` raises exactly for 4xx/5xx.
The amendment: a connection error, a timeout, or a 4xx/5xx final
response aborts the run with the propagated failure, and since the
fetch precedes the opening of the output path, no output is written
(`mainModel` yields no document). -/

/-- C8 (amended): on a transport error or a 4xx/5xx response the run
propagates the failure and produces no output document. -/
theorem c8_amended_abort (now : String) (r : Except ReqError HttpResp) :
    (∀ e', r = .error e' → mainModel now r = .error (.transport e')) ∧
    (∀ resp, r = .ok resp → 400 ≤ resp.status → resp.status ≤ 599 →
      mainModel now r = .error (.http resp.status)) := by
  constructor
  · intro e' he
    subst he
    rfl
  · intro resp he h4 h5
    subst he
    have hf : fetch (.ok resp) = .error (.http resp.status) := by
      show (if 400 ≤ resp.status ∧ resp.status ≤ 599 then
        Except.error (RunError.http resp.status)
        else Except.ok resp.body) = _
      rw [if_pos ⟨h4, h5⟩]
    unfold mainModel
    simp only [hf]

/-- Witness for the amended C8 at a timeout and at a 404 response. -/
theorem c8_amended_witness :
    mainModel "X" (.error .timeout) = .error (.transport .timeout) ∧
    mainModel "X" (.ok ⟨404, []⟩) = .error (.http 404) := by
  constructor
  · exact (c8_amended_abort "X" (.error .timeout)).1 .timeout rfl
  · exact (c8_amended_abort "X" (.ok ⟨404, []⟩)).2 ⟨404, []⟩ rfl
      (by decide) (by decide)

/-! ### Claim C10: the location field

The claim-side notion of a whole-word, case-insensitive keyword
occurrence is stated as an explicit decomposition of the blob, and the
embedded leftmost scan is proved sound and complete for it. -/

/-- Does `m` match the case pairs exactly (full consumption)? -/
def wholeMatch (pairs : List (Char × Char)) (m : List Char) : Bool :=
  matchCI pairs m == some (m, [])

/-- The word boundary to the left of a match preceded by `pre`, the
scan having started right after `prev`: the boundary against the last
character of `pre`, or against `prev` when `pre` is empty. -/
def lastBoundary (prev : Option Char) : List Char → Bool
  | [] => boundaryBefore prev
  | c :: pre => lastBoundary (some c) pre

/-- The claim's condition: the blob contains `Knihovna` or `zájezd` as
a whole word, in any letter case. -/
def kwOccurrence (blob : String) : Prop :=
  ∃ pre m post, blob.data = pre ++ m ++ post ∧
    (wholeMatch kPairs m = true ∨ wholeMatch zPairs m = true) ∧
    lastBoundary none pre = true ∧ boundaryAfter post = true

/-- A successful case-pair match splits its input and matches its
consumed part exactly. -/
theorem matchCI_split (pairs : List (Char × Char)) :
    ∀ l m r, matchCI pairs l = some (m, r) →
      l = m ++ r ∧ wholeMatch pairs m = true := by
  induction pairs with
  | nil =>
    intro l m r h
    unfold matchCI at h
    simp only [Option.some.injEq, Prod.mk.injEq] at h
    obtain ⟨h1, h2⟩ := h
    subst h1; subst h2
    exact ⟨rfl, by decide⟩
  | cons p ps ih =>
    obtain ⟨lo, up⟩ := p
    intro l m r h
    rcases l with _ | ⟨c, l2⟩
    · simp [matchCI] at h
    unfold matchCI at h
    by_cases hc : (c = lo || c = up) = true
    · rw [if_pos hc] at h
      rcases hm : matchCI ps l2 with _ | ⟨m2, r2⟩ <;> simp only [hm] at h
      · simp at h
      simp only [Option.some.injEq, Prod.mk.injEq] at h
      obtain ⟨h1, h2⟩ := h
      subst h2
      subst h1
      obtain ⟨hsp, hw⟩ := ih l2 m2 _ hm
      constructor
      · rw [hsp]; rfl
      · have hext : matchCI ps m2 = some (m2, []) := by
          have h3 := hw
          unfold wholeMatch at h3
          exact beq_iff_eq.mp h3
        unfold wholeMatch matchCI
        rw [if_pos hc]
        simp only [hext]
        exact beq_iff_eq.mpr rfl
    · rw [if_neg hc] at h
      simp at h

/-- A full match extends to any continuation, consuming exactly the
matched word. -/
theorem matchCI_extend (pairs : List (Char × Char)) :
    ∀ m rest, wholeMatch pairs m = true →
      matchCI pairs (m ++ rest) = some (m, rest) := by
  induction pairs with
  | nil =>
    intro m rest h
    unfold wholeMatch matchCI at h
    rw [beq_iff_eq] at h
    simp only [Option.some.injEq, Prod.mk.injEq] at h
    obtain ⟨h1, _⟩ := h
    subst h1
    rfl
  | cons p ps ih =>
    obtain ⟨lo, up⟩ := p
    intro m rest h
    rcases m with _ | ⟨c, m2⟩
    · simp [wholeMatch, matchCI] at h
    unfold wholeMatch matchCI at h
    by_cases hc : (c = lo || c = up) = true
    · rw [if_pos hc] at h
      rcases hm : matchCI ps m2 with _ | ⟨m3, r3⟩ <;> simp only [hm] at h
      · simp at h
      rw [beq_iff_eq] at h
      simp only [Option.some.injEq, Prod.mk.injEq, List.cons.injEq] at h
      obtain ⟨⟨-, h1⟩, h2⟩ := h
      rw [h1, h2] at hm
      have hw2 : wholeMatch ps m2 = true := by
        unfold wholeMatch
        rw [hm]
        exact beq_iff_eq.mpr rfl
      show matchCI ((lo, up) :: ps) (c :: (m2 ++ rest)) = _
      unfold matchCI
      rw [if_pos hc]
      simp only [ih m2 rest hw2]
    · rw [if_neg hc] at h
      simp at h

/-- The first character of a whole match lies in the first case pair,
and the tail matches the remaining pairs. -/
theorem wholeMatch_head (lo up : Char) (ps : List (Char × Char))
    (m : List Char) (h : wholeMatch ((lo, up) :: ps) m = true) :
    ∃ c m2, m = c :: m2 ∧ (c = lo ∨ c = up) ∧ wholeMatch ps m2 = true := by
  rcases m with _ | ⟨c, m2⟩
  · simp [wholeMatch, matchCI] at h
  unfold wholeMatch matchCI at h
  by_cases hc : (c = lo || c = up) = true
  · rw [if_pos hc] at h
    rcases hm : matchCI ps m2 with _ | ⟨m3, r3⟩ <;> simp only [hm] at h
    · simp at h
    rw [beq_iff_eq] at h
    simp only [Option.some.injEq, Prod.mk.injEq, List.cons.injEq] at h
    obtain ⟨⟨-, h1⟩, h2⟩ := h
    rw [h1, h2] at hm
    refine ⟨c, m2, rfl, ?_, ?_⟩
    · rcases Bool.or_eq_true _ _ |>.mp hc with hh | hh
      · exact Or.inl (of_decide_eq_true hh)
      · exact Or.inr (of_decide_eq_true hh)
    · unfold wholeMatch
      rw [hm]
      exact beq_iff_eq.mpr rfl
  · rw [if_neg hc] at h
    simp at h

/-- Lower-casing a whole match gives the lower-case pattern word. -/
theorem wholeMatch_lower (pairs : List (Char × Char)) :
    ∀ m, (∀ q ∈ pairs, pyLowerChar q.1 = q.1 ∧ pyLowerChar q.2 = q.1) →
      wholeMatch pairs m = true →
      m.map pyLowerChar = pairs.map Prod.fst := by
  induction pairs with
  | nil =>
    intro m hp h
    unfold wholeMatch matchCI at h
    rw [beq_iff_eq] at h
    simp only [Option.some.injEq, Prod.mk.injEq] at h
    obtain ⟨h1, _⟩ := h
    subst h1
    rfl
  | cons p ps ih =>
    obtain ⟨lo, up⟩ := p
    intro m hp h
    rcases wholeMatch_head lo up ps m h with ⟨c, m2, hm, hc, hw2⟩
    subst hm
    have hq1 : pyLowerChar lo = lo := (hp (lo, up) (by simp)).1
    have hq2 : pyLowerChar up = lo := (hp (lo, up) (by simp)).2
    have hrest := ih m2 (fun q hq => hp q (by simp [hq])) hw2
    show pyLowerChar c :: m2.map pyLowerChar = lo :: ps.map Prod.fst
    rw [hrest]
    rcases hc with hc | hc <;> subst hc
    · rw [hq1]
    · rw [hq2]

/-- Extending the prefix of the scan by one character preserves the
left-boundary computation. -/
theorem lastBoundary_cons (prev : Option Char) (c : Char) (pre : List Char) :
    lastBoundary prev (c :: pre) = lastBoundary (some c) pre := rfl

/-- A hit of the single-position matcher is a whole-word occurrence at
the head of its input. -/
theorem tryWord_sound (prev : Option Char) (l m : List Char)
    (h : tryWord prev l = some m) :
    ∃ post, l = m ++ post ∧
      (wholeMatch kPairs m = true ∨ wholeMatch zPairs m = true) ∧
      boundaryBefore prev = true ∧ boundaryAfter post = true := by
  unfold tryWord at h
  by_cases hb : boundaryBefore prev = true
  · rw [if_pos hb] at h
    rcases hk : matchCI kPairs l with _ | ⟨mk, rk⟩ <;> simp only [hk] at h
    · rcases hz : matchCI zPairs l with _ | ⟨mz, rz⟩ <;> simp only [hz] at h
      · simp at h
      by_cases ha : boundaryAfter rz = true
      · rw [if_pos ha] at h
        injection h with h
        subst h
        obtain ⟨hsp, hw⟩ := matchCI_split zPairs l mz rz hz
        exact ⟨rz, hsp, Or.inr hw, hb, ha⟩
      · rw [if_neg ha] at h
        simp at h
    · by_cases ha : boundaryAfter rk = true
      · rw [if_pos ha] at h
        injection h with h
        subst h
        obtain ⟨hsp, hw⟩ := matchCI_split kPairs l mk rk hk
        exact ⟨rk, hsp, Or.inl hw, hb, ha⟩
      · rw [if_neg ha] at h
        simp at h
  · rw [if_neg hb] at h
    simp at h

/-- The single-position matcher hits on every whole-word occurrence at
the head of its input. -/
theorem tryWord_complete (prev : Option Char) (m post : List Char)
    (hb : boundaryBefore prev = true)
    (hw : wholeMatch kPairs m = true ∨ wholeMatch zPairs m = true)
    (ha : boundaryAfter post = true) :
    (tryWord prev (m ++ post)).isSome = true := by
  unfold tryWord
  rw [if_pos hb]
  rcases hw with hw | hw
  · simp only [matchCI_extend kPairs m post hw]
    rw [if_pos ha]
    rfl
  · obtain ⟨c, m2, hm, hc, -⟩ := wholeMatch_head 'z' 'Z' _ m hw
    subst hm
    have hk : matchCI kPairs ((c :: m2) ++ post) = none := by
      rcases hc with hc | hc <;> subst hc <;> rfl
    simp only [hk, matchCI_extend zPairs (c :: m2) post hw]
    rw [if_pos ha]
    rfl

/-- Soundness of the leftmost scan: a hit is a whole-word occurrence
somewhere in the input, with the proper boundaries. -/
theorem locSearchAux_sound (l : List Char) : ∀ prev m,
    locSearchAux prev l = some m →
    (wholeMatch kPairs m = true ∨ wholeMatch zPairs m = true) ∧
    ∃ pre post, l = pre ++ m ++ post ∧
      lastBoundary prev pre = true ∧ boundaryAfter post = true := by
  induction l with
  | nil =>
    intro prev m h
    simp [locSearchAux] at h
  | cons c rest ih =>
    intro prev m h
    unfold locSearchAux at h
    rcases htw : tryWord prev (c :: rest) with _ | m2 <;> simp only [htw] at h
    · obtain ⟨hw, pre, post, hsp, hlb, hba⟩ := ih (some c) m h
      refine ⟨hw, c :: pre, post, ?_, ?_, hba⟩
      · subst hsp
        rfl
      · rw [lastBoundary_cons]
        exact hlb
    · injection h with h
      rw [← h]
      obtain ⟨post, hsp, hw, hbb, hba⟩ := tryWord_sound prev (c :: rest) m2 htw
      exact ⟨hw, [], post, hsp, hbb, hba⟩

/-- Completeness of the leftmost scan: a whole-word occurrence anywhere
in the input guarantees a hit. -/
theorem locSearchAux_complete : ∀ (pre : List Char) (prev : Option Char)
    (m post : List Char), lastBoundary prev pre = true →
    (wholeMatch kPairs m = true ∨ wholeMatch zPairs m = true) →
    boundaryAfter post = true →
    (locSearchAux prev (pre ++ m ++ post)).isSome = true := by
  intro pre
  induction pre with
  | nil =>
    intro prev m post hb hw ha
    have hm : ∃ c m2, m = c :: m2 := by
      rcases hw with hw | hw
      · obtain ⟨c, m2, hm, -, -⟩ := wholeMatch_head 'k' 'K' _ m hw
        exact ⟨c, m2, hm⟩
      · obtain ⟨c, m2, hm, -, -⟩ := wholeMatch_head 'z' 'Z' _ m hw
        exact ⟨c, m2, hm⟩
    obtain ⟨c, m2, hm⟩ := hm
    subst hm
    show (locSearchAux prev (c :: (m2 ++ post))).isSome = true
    unfold locSearchAux
    rcases htw : tryWord prev (c :: (m2 ++ post)) with _ | mF <;>
      simp only [htw]
    · have hcomp := tryWord_complete prev (c :: m2) post hb hw ha
      rw [show (c :: m2) ++ post = c :: (m2 ++ post) from rfl, htw] at hcomp
      simp at hcomp
    · rfl
  | cons c pre2 ih =>
    intro prev m post hb hw ha
    show (locSearchAux prev (c :: (pre2 ++ m ++ post))).isSome = true
    unfold locSearchAux
    rcases htw : tryWord prev (c :: (pre2 ++ m ++ post)) with _ | mF <;>
      simp only [htw]
    · exact ih (some c) m post (by rw [← lastBoundary_cons]; exact hb) hw ha
    · rfl

/-- Capitalising a case-insensitive match of the pattern `Knihovna`
yields exactly `Knihovna`. -/
theorem capitalize_knihovna (m : List Char) (hw : wholeMatch kPairs m = true) :
    pyCapitalize ⟨m⟩ = "Knihovna" := by
  obtain ⟨c, m2, hm, hc, hw2⟩ := wholeMatch_head 'k' 'K' _ m hw
  subst hm
  have hlow := wholeMatch_lower
    [('n', 'N'), ('i', 'I'), ('h', 'H'), ('o', 'O'),
     ('v', 'V'), ('n', 'N'), ('a', 'A')] m2 (by decide) hw2
  show (⟨pyUpperChar c :: m2.map pyLowerChar⟩ : String) = "Knihovna"
  rw [hlow]
  rcases hc with hc | hc <;> subst hc <;> decide

/-- Capitalising a case-insensitive match of the pattern `zájezd`
yields exactly `Zájezd`. -/
theorem capitalize_zajezd (m : List Char) (hw : wholeMatch zPairs m = true) :
    pyCapitalize ⟨m⟩ = "Zájezd" := by
  obtain ⟨c, m2, hm, hc, hw2⟩ := wholeMatch_head 'z' 'Z' _ m hw
  subst hm
  have hlow := wholeMatch_lower
    [('á', 'Á'), ('j', 'J'), ('e', 'E'), ('z', 'Z'), ('d', 'D')]
    m2 (by decide) hw2
  show (⟨pyUpperChar c :: m2.map pyLowerChar⟩ : String) = "Zájezd"
  rw [hlow]
  rcases hc with hc | hc <;> subst hc <;> decide

/-- A produced event's location is the capitalised location-search hit
with the institution default as fallback. -/
theorem extractBlock_location (title blob : String) (ev : Event)
    (h : extractBlock title blob = .ok (some ev)) :
    ev.location =
      pyOr ((locSearch blob).map pyCapitalize) "Knihovna F. V. Lorence Vrdy" := by
  unfold extractBlock at h
  rcases ht : termScan blob with _ | tt <;> simp only [ht] at h
  · exact absurd h (by simp)
  by_cases hsw : pyStartsWith (pyLower tt) "termín neuveden" = true
  · rw [if_pos hsw] at h
    exact absurd h (by simp)
  rw [if_neg hsw] at h
  rcases hpt : parseTerm tt with u | o <;> simp only [hpt] at h
  · exact absurd h (by simp)
  rcases o with _ | ⟨s, e⟩
  · exact absurd h (by simp)
  injection h with h
  injection h with h
  rw [← h]

/-- C10: for every produced event, the location field is the
capitalised keyword exactly when the block contains `Knihovna` or
`zájezd` as a whole word in any letter case, and the fixed default
institution name otherwise; no other value occurs. -/
theorem c10_location (title blob : String) (ev : Event)
    (h : extractBlock title blob = .ok (some ev)) :
    ev.location =
      pyOr ((locSearch blob).map pyCapitalize) "Knihovna F. V. Lorence Vrdy" ∧
    (kwOccurrence blob →
      ev.location = "Knihovna" ∨ ev.location = "Zájezd") ∧
    (¬ kwOccurrence blob →
      ev.location = "Knihovna F. V. Lorence Vrdy") := by
  refine ⟨extractBlock_location title blob ev h, ?_, ?_⟩
  · intro hocc
    obtain ⟨pre, m, post, hsp, hw, hlb, hba⟩ := hocc
    have hsome := locSearchAux_complete pre none m post hlb hw hba
    rw [← hsp] at hsome
    rcases hls : locSearchAux none blob.data with _ | mF
    · rw [hls] at hsome
      simp at hsome
    obtain ⟨hwF, -⟩ := locSearchAux_sound blob.data none mF hls
    have hlsS : locSearch blob = some ⟨mF⟩ := by
      unfold locSearch
      rw [hls]
      rfl
    have hbase := extractBlock_location title blob ev h
    rw [hlsS] at hbase
    rcases hwF with hwF | hwF
    · left
      rw [hbase]
      show pyOr (some (pyCapitalize ⟨mF⟩)) _ = _
      rw [capitalize_knihovna mF hwF]
      rfl
    · right
      rw [hbase]
      show pyOr (some (pyCapitalize ⟨mF⟩)) _ = _
      rw [capitalize_zajezd mF hwF]
      rfl
  · intro hnocc
    rcases hls : locSearchAux none blob.data with _ | mF
    · have hlsS : locSearch blob = none := by
        unfold locSearch
        rw [hls]
        rfl
      rw [extractBlock_location title blob ev h, hlsS]
      rfl
    · exfalso
      obtain ⟨hwF, pre, post, hsp, hlb, hba⟩ :=
        locSearchAux_sound blob.data none mF hls
      exact hnocc ⟨pre, mF, post, hsp, hwF, hlb, hba⟩

/-- A block containing the keyword `zájezd` and a date. -/
def blobC10W : String := "zájezd \n05.05.2025"

/-- The event extracted from that block. -/
def evC10W : Event :=
  ((extractBlock "T" blobC10W).toOption.getD none).getD defaultEvent

/-- Witness for C10 at a block with a trip keyword. -/
theorem c10_location_witness :
    kwOccurrence blobC10W ∧ evC10W.location = "Zájezd" := by
  have hocc : kwOccurrence blobC10W :=
    ⟨[], "zájezd".data, " \n05.05.2025".data, by decide, by decide,
      by decide, by decide⟩
  refine ⟨hocc, ?_⟩
  have h := (c10_location "T" blobC10W evC10W (by decide)).2.1 hocc
  rcases h with h | h
  · exact absurd h (by decide)
  · exact h

end KnihovnaVrdy
